import Mathlib

/-!
Shallow embedding of src/libs/go/p4lib/p4_cgo_bridge.cc: a bounded pool of
backend sessions, a drop-and-retry command executor (p4runcb) and the
callback adapter (ClientCb) that forwards result events across the cgo
boundary.  The backend session type (Perforce ClientApi) is external to the
repository; the behaviour it exhibits during one iteration of the retry loop
(whether a freshly constructed client initialises, whether the session is
dropped after Run, whether Final reports an error, and which output
callbacks Run triggers) is supplied by an oracle, one entry per iteration.
-/

namespace P4Bridge

/-- Constant kMaxClients = 16 (line 28): try not to keep more than this many
clients idle. -/
def kMaxClients : Nat := 16

/-- State of one backend session (ClientApi): credential pair, dropped flag,
and the unnamed variables set with SetVar before Run.  The field
pendingOverride is specification instrumentation only: it records that
SetUser/SetPassword were called with override credentials that have not yet
been restored.  No ClientApi field corresponds to it and it never influences
control flow; it exists so that the no-override-leak invariant can be
stated. -/
structure Session where
  user : String
  passwd : String
  dropped : Bool
  vars : List (List Char)
  pendingOverride : Bool
  deriving DecidableEq

/-- Outcome of constructing and initialising a fresh ClientApi when the idle
queue is empty (lines 43-67): either Init fails with a formatted backend
message, or it succeeds yielding a session with some default credentials and
a measured construction time in microseconds. -/
inductive FreshOutcome where
  | fail (msg : String)
  | ok (user passwd : String) (elapsedUs : Nat)
  deriving DecidableEq

/-- A freshly initialised session: not dropped, no variables set, no
credential override pending. -/
def freshSession (u p : String) : Session :=
  { user := u, passwd := p, dropped := false, vars := [], pendingOverride := false }

/-- Prefix prepended to the Init failure message when reporting an
acquisition error (lines 55-56). -/
def initErrorPrefix : String := "error initializing client: "

/-- Pool::Client (lines 32-79), acquisition side.  Under the lock, pop the
front of the idle deque if non-empty and hand it out (isFresh = false, no
construction time).  If the deque is empty, construct a fresh client; on
Init failure return the formatted error and no session, otherwise return the
fresh session with isFresh = true and its elapsed construction time in
microseconds.  Result: (error or (session, isFresh, elapsedUs), idle queue
after the pop). -/
def poolClient (idle : List Session) (fresh : FreshOutcome) :
    Except String (Session × Bool × Nat) × List Session :=
  match idle with
  | s :: rest => (Except.ok (s, false, 0), rest)
  | [] =>
    match fresh with
    | FreshOutcome.fail msg => (Except.error (initErrorPrefix ++ msg), [])
    | FreshOutcome.ok u p e => (Except.ok (freshSession u p, true, e), [])

/-- The shared_ptr deleter of Pool::Client (lines 70-77): when the lease
ends, push the session to the back of the idle deque if it is not dropped
and the deque is below kMaxClients; otherwise delete it (the session simply
does not re-enter the queue). -/
def release (idle : List Session) (s : Session) : List Session :=
  if s.dropped = false ∧ idle.length < kMaxClients then idle ++ [s] else idle

/-- Result events forwarded across the cgo boundary by ClientCb (the
gop4api* callbacks, lines 104-111).  The correlation id (cbid) is the same
for every event of one execution and is left implicit. -/
inductive Event where
  | errorEv (msg : String)
  | binary (data : List Nat)
  | text (data : List Nat)
  | info (level : Nat) (line : String)
  | stat (keys : List String) (values : List String)
  | retryEv (context : String) (msg : String)
  deriving DecidableEq

/-- Output callbacks the backend may trigger while Run executes.  ClientApi
invokes only the ClientUser overrides (HandleError, OutputBinary,
OutputText, OutputInfo, OutputStat, InputData); Retry is never among them —
it is called by p4runcb itself. -/
inductive RunOutput where
  | err (msg : String)
  | bin (data : List Nat)
  | txt (data : List Nat)
  | infoLine (level : Nat) (line : String)
  | statRec (record : List (String × String))
  deriving DecidableEq

/-- The reserved formatting-marker key P4Tag::v_specFormatted of the backend
API (line 155). -/
def vSpecFormatted : String := "specFormatted"

/-- The GetVar loop of ClientCb::OutputStat (lines 146-161): walk the
record's key/value pairs in order, skip a pair whose key is "func" or the
specFormatted marker, and collect the rest into parallel key and value
lists. -/
def outputStatLoop : List (String × String) → List String × List String
  | [] => ([], [])
  | (var, val) :: rest =>
    let r := outputStatLoop rest
    if var == "func" || var == vSpecFormatted then r
    else (var :: r.1, val :: r.2)

/-- ClientCb::OutputStat (lines 146-163): forward the collected parallel
key/value lists as one stat event. -/
def outputStat (record : List (String × String)) : Event :=
  Event.stat (outputStatLoop record).1 (outputStatLoop record).2

/-- How ClientCb maps each backend output callback to the boundary event it
forwards (lines 119-163). -/
def runOutputToEvent : RunOutput → Event
  | RunOutput.err m => Event.errorEv m
  | RunOutput.bin d => Event.binary d
  | RunOutput.txt d => Event.text d
  | RunOutput.infoLine l s => Event.info l s
  | RunOutput.statRec r => outputStat r

/-- ClientCb::InputData (lines 164-169): when the execution's input payload
is non-empty, append it to the requested buffer and null-terminate;
otherwise leave the buffer untouched. -/
def inputData (input : List Char) (buf : List Char) : List Char :=
  if 0 < input.length then (buf ++ input) ++ [Char.ofNat 0] else buf

/-- The context string of the retry notice (line 223). -/
def retryContext : String := "p4 connection dropped: "

/-- The argument-setting loop of p4runcb (lines 203-208): the i-th unnamed
variable is the slice of the packed buffer starting at offset next (the sum
of the preceding lengths) and extending for the i-th length. -/
def setVarsLoop (joined : List Char) : List Nat → Nat → List (List Char)
  | [], _ => []
  | l :: ls, next => (joined.drop next).take l :: setVarsLoop joined ls (next + l)

/-- The arguments of one p4runcb invocation (line 177): command name,
credential override pair, input payload, packed argument buffer with its
length table.  The tag flag only selects which of the two pools is used and
the cbid only tags events, so neither needs to appear here. -/
structure Descriptor where
  cmd : String
  user : String
  passwd : String
  input : List Char
  joined : List Char
  argLens : List Nat
  deriving DecidableEq

/-- Oracle for one iteration of the retry loop: how a fresh construction
would turn out if the idle queue is empty, which output callbacks Run
triggers, whether the session is dropped after Run, and the error Final
reports (none when Final succeeds). -/
structure AttemptOracle where
  fresh : FreshOutcome
  runOutputs : List RunOutput
  drops : Bool
  finalErr : Option String
  deriving DecidableEq

/-- Credential override (lines 193-200): when both override fields are
non-empty, set them on the session (capturing the originals is done by the
caller, which keeps the leased session s0 around). -/
def overrideApply (d : Descriptor) (s : Session) : Session :=
  if d.user ≠ "" ∧ d.passwd ≠ "" then
    { s with user := d.user, passwd := d.passwd, pendingOverride := true }
  else s

/-- Credential restore on the non-dropped path (lines 212-216): under the
same condition as the override, set the captured original credentials back
on the session. -/
def overrideRestore (d : Descriptor) (orig : Session) (s : Session) : Session :=
  if d.user ≠ "" ∧ d.passwd ≠ "" then
    { s with user := orig.user, passwd := orig.passwd, pendingOverride := false }
  else s

/-- State of the session after one attempt: credentials possibly overridden,
the unnamed variables set from the packed buffer (lines 202-208), and the
dropped flag as the oracle dictates Run left it. -/
def afterRun (d : Descriptor) (o : AttemptOracle) (s : Session) : Session :=
  { overrideApply d s with
    vars := setVarsLoop d.joined d.argLens 0, dropped := o.drops }

/-- The retry notice ClientCb::Retry emits while handling a drop: p4runcb
calls it only when Final reported an error (lines 220-224). -/
def retryEventsOf : Option String → List Event
  | some m => [Event.retryEv retryContext m]
  | none => []

/-- The retry loop of p4runcb (lines 185-227), one oracle entry per
iteration.  Acquire a session from the pool; on acquisition failure emit one
error event and return immediately.  Otherwise apply the override, set the
arguments, run (collecting the run-phase events), and check the dropped
flag: if not dropped, restore the credentials and release the lease (break);
if dropped, finalize, emit a retry notice when Final errored, let the
deleter discard the session, and loop.  Returns none when the oracle script
is exhausted before the loop exits (the loop itself is unbounded). Result:
(events in emission order, returned init_us, final idle queue). -/
def p4runcb (d : Descriptor) : List AttemptOracle → List Session → Nat →
    Option (List Event × Nat × List Session)
  | [], _, _ => none
  | o :: rest, idle, initUs =>
    match poolClient idle o.fresh with
    | (Except.error msg, idle2) => some ([Event.errorEv msg], initUs, idle2)
    | (Except.ok (s0, _, e), idle2) =>
      let s3 := afterRun d o s0
      if s3.dropped = false then
        some (o.runOutputs.map runOutputToEvent, initUs + e,
              release idle2 (overrideRestore d s0 s3))
      else
        (p4runcb d rest (release idle2 s3) (initUs + e)).map fun r =>
          (o.runOutputs.map runOutputToEvent ++ (retryEventsOf o.finalErr ++ r.1),
           r.2.1, r.2.2)

/-- How each executed attempt acquired its session. -/
inductive Acq where
  | fromIdle (s : Session)
  | freshOk (u p : String) (e : Nat)
  | freshFail (msg : String)
  deriving DecidableEq

/-- One executed attempt of the retry loop: its acquisition, whether the
session was dropped after Run, and the Final outcome. -/
structure TraceEntry where
  acq : Acq
  drops : Bool
  finalErr : Option String
  deriving DecidableEq

/-- The sequence of attempts the retry loop actually executes for a given
oracle script and initial idle queue: an attempt is followed by another only
when its session was dropped, and an acquisition failure ends the run. -/
def execTrace : List AttemptOracle → List Session → List TraceEntry
  | [], _ => []
  | o :: rest, s :: t =>
    { acq := Acq.fromIdle s, drops := o.drops, finalErr := o.finalErr } ::
      (if o.drops then execTrace rest t else [])
  | o :: rest, [] =>
    match o.fresh with
    | FreshOutcome.fail msg =>
      [{ acq := Acq.freshFail msg, drops := false, finalErr := none }]
    | FreshOutcome.ok u p e =>
      { acq := Acq.freshOk u p e, drops := o.drops, finalErr := o.finalErr } ::
        (if o.drops then execTrace rest [] else [])

/-- Recogniser for retry-notice events. -/
def isRetryEv : Event → Bool
  | Event.retryEv _ _ => true
  | _ => false

/-- Number of retry-notice events in an event list. -/
def countRetry (es : List Event) : Nat := (es.filter isRetryEv).length

/-- Number of executed attempts whose session dropped. -/
def dropCount (tr : List TraceEntry) : Nat :=
  (tr.filter fun t => t.drops).length

/-- Number of executed attempts whose session dropped and whose Final call
reported an error. -/
def dropErrCount (tr : List TraceEntry) : Nat :=
  (tr.filter fun t => t.drops && t.finalErr.isSome).length

/-- Total construction time of the fresh sessions constructed during a
run. -/
def initUsSpec (tr : List TraceEntry) : Nat :=
  (tr.map fun t =>
    match t.acq with
    | Acq.freshOk _ _ e => e
    | _ => 0).sum

/-- Pool invariant: the idle queue never exceeds kMaxClients and holds no
dropped session. -/
def poolInv (idle : List Session) : Prop :=
  idle.length ≤ kMaxClients ∧ ∀ s ∈ idle, s.dropped = false

-- Basic lemmas about the pieces.

theorem afterRun_dropped (d : Descriptor) (o : AttemptOracle) (s : Session) :
    (afterRun d o s).dropped = o.drops := rfl

theorem release_dropped (idle : List Session) (s : Session) (h : s.dropped = true) :
    release idle s = idle := by
  simp [release, h]

theorem mem_release (idle : List Session) (s x : Session) (h : x ∈ release idle s) :
    x ∈ idle ∨ x = s := by
  unfold release at h
  split at h
  · rcases List.mem_append.1 h with h1 | h1
    · exact Or.inl h1
    · exact Or.inr (List.mem_singleton.1 h1)
  · exact Or.inl h

theorem isRetryEv_runOutput (x : RunOutput) : isRetryEv (runOutputToEvent x) = false := by
  cases x <;> rfl

theorem countRetry_append (a b : List Event) :
    countRetry (a ++ b) = countRetry a + countRetry b := by
  simp [countRetry, List.filter_append]

theorem countRetry_runEvents (l : List RunOutput) :
    countRetry (l.map runOutputToEvent) = 0 := by
  induction l with
  | nil => rfl
  | cons x xs ih =>
    simp [countRetry, List.filter_cons, isRetryEv_runOutput]

theorem countRetry_retryEventsOf (fe : Option String) :
    countRetry (retryEventsOf fe) = if fe.isSome then 1 else 0 := by
  cases fe <;> rfl

theorem restore_pendingOverride (d : Descriptor) (o : AttemptOracle) (s0 : Session)
    (h : s0.pendingOverride = false) :
    (overrideRestore d s0 (afterRun d o s0)).pendingOverride = false := by
  by_cases hov : d.user ≠ "" ∧ d.passwd ≠ "" <;>
    simp [overrideRestore, afterRun, overrideApply, hov, h]

-- C3

/-- C3: after every acquire and every release the idle queue has size at
most kMaxClients = 16 and contains no dropped session, and releasing a
healthy session when the queue already holds 16 entries leaves the queue
unchanged — the session is destroyed, not queued. -/
theorem c3_theorem (idle : List Session) (s : Session) (f : FreshOutcome)
    (h : poolInv idle) :
    poolInv (poolClient idle f).2 ∧ poolInv (release idle s) ∧
    (s.dropped = false → idle.length = kMaxClients → release idle s = idle) := by
  obtain ⟨hlen, hmem⟩ := h
  refine ⟨?_, ?_, ?_⟩
  · cases idle with
    | nil =>
      cases f <;> exact ⟨by simp [poolClient, kMaxClients], by simp [poolClient]⟩
    | cons a t =>
      refine ⟨?_, ?_⟩
      · simpa [poolClient] using Nat.le_of_succ_le (by simpa using hlen)
      · intro x hx
        exact hmem x (List.mem_cons_of_mem a (by simpa [poolClient] using hx))
  · unfold release
    split
    · next hc =>
      constructor
      · simpa using Nat.succ_le_of_lt hc.2
      · intro x hx
        rcases List.mem_append.1 hx with h1 | h1
        · exact hmem x h1
        · rw [List.mem_singleton.1 h1]; exact hc.1
    · exact ⟨hlen, hmem⟩
  · intro _ hfull
    unfold release
    split
    · next hc => omega
    · rfl

/-- Witness for C3 at a concrete pool state. -/
theorem c3_witness :
    poolInv (release [] (freshSession "u" "p")) :=
  (c3_theorem [] (freshSession "u" "p") (FreshOutcome.fail "m")
    ⟨by simp [kMaxClients], by simp⟩).2.1

-- C5

theorem setVarsLoop_length (joined : List Char) (lens : List Nat) (next : Nat) :
    (setVarsLoop joined lens next).length = lens.length := by
  induction lens generalizing next with
  | nil => rfl
  | cons l ls ih => simp [setVarsLoop, ih]

theorem setVarsLoop_getElem (joined : List Char) (lens : List Nat)
    (next i : Nat) :
    (setVarsLoop joined lens next)[i]? =
      (lens[i]?).map fun l => (joined.drop (next + (lens.take i).sum)).take l := by
  induction lens generalizing next i with
  | nil => simp [setVarsLoop]
  | cons l ls ih =>
    cases i with
    | zero => simp [setVarsLoop]
    | succ i =>
      simp only [setVarsLoop, List.getElem?_cons_succ, List.take_succ_cons,
        List.sum_cons, ih]
      have : next + l + (ls.take i).sum = next + (l + (ls.take i).sum) := by omega
      rw [this]

/-- C5: p4runcb sets exactly argc unnamed variables, the i-th being the
slice of the packed buffer that starts at the sum of the first i lengths
and extends for the i-th length; in particular the packed buffer
"foobarbaz" with length table [3, 3, 3] yields the variables "foo", "bar",
"baz" in that order. -/
theorem c5_theorem (joined : List Char) (lens : List Nat) :
    (setVarsLoop joined lens 0).length = lens.length ∧
    (∀ i : Nat, (setVarsLoop joined lens 0)[i]? =
      (lens[i]?).map fun l => (joined.drop ((lens.take i).sum)).take l) ∧
    setVarsLoop "foobarbaz".toList [3, 3, 3] 0 =
      ["foo".toList, "bar".toList, "baz".toList] := by
  refine ⟨setVarsLoop_length joined lens 0, ?_, by decide⟩
  intro i
  simpa using setVarsLoop_getElem joined lens 0 i

-- C6

/-- C6: OutputStat forwards, in record order, exactly the key/value pairs
whose key is neither "func" nor the specFormatted marker, as parallel key
and value lists of equal length; the record with keys "func", the marker,
and "client" forwards only the "client" pair. -/
theorem c6_theorem (record : List (String × String)) :
    (outputStatLoop record).1.length = (outputStatLoop record).2.length ∧
    (outputStatLoop record).1 =
      (record.filter fun kv => !(kv.1 == "func" || kv.1 == vSpecFormatted)).map
        Prod.fst ∧
    (outputStatLoop record).2 =
      (record.filter fun kv => !(kv.1 == "func" || kv.1 == vSpecFormatted)).map
        Prod.snd ∧
    outputStatLoop [("func", "x"), ("specFormatted", "y"), ("client", "z")] =
      (["client"], ["z"]) := by
  refine ⟨?_, ?_, ?_, by decide⟩ <;>
  · induction record with
    | nil => simp [outputStatLoop]
    | cons kv rest ih =>
      obtain ⟨var, val⟩ := kv
      by_cases h1 : var = "func"
      · simp [outputStatLoop, List.filter_cons, h1, ih]
      · by_cases h2 : var = vSpecFormatted
        · simp [outputStatLoop, List.filter_cons, h1, h2, ih]
        · simp [outputStatLoop, List.filter_cons, h1, h2, ih]

-- C9

/-- C9: InputData appends a non-empty input payload verbatim to the
requested buffer followed by a null terminator, and leaves the buffer
entirely unchanged when the payload is empty. -/
theorem c9_theorem (input buf : List Char) :
    (input ≠ [] → inputData input buf = buf ++ input ++ [Char.ofNat 0]) ∧
    (input = [] → inputData input buf = buf) := by
  constructor
  · intro h
    have : 0 < input.length := List.length_pos.2 h
    simp [inputData, this]
  · intro h
    simp [inputData, h]

/-- Witness for C9 on a concrete payload and buffer. -/
theorem c9_witness :
    inputData "hi".toList "b".toList = "b".toList ++ "hi".toList ++ [Char.ofNat 0] ∧
    inputData [] "b".toList = "b".toList := by
  constructor
  · exact (c9_theorem ("hi".toList) ("b".toList)).1 (by decide)
  · exact (c9_theorem [] ("b".toList)).2 rfl

-- Unfolding lemmas for one iteration of the retry loop.

theorem p4runcb_cons_idle_ok (d : Descriptor) (o : AttemptOracle)
    (rest : List AttemptOracle) (s : Session) (t : List Session) (initUs : Nat)
    (hnd : o.drops = false) :
    p4runcb d (o :: rest) (s :: t) initUs =
      some (o.runOutputs.map runOutputToEvent, initUs,
            release t (overrideRestore d s (afterRun d o s))) := by
  simp [p4runcb, poolClient, afterRun_dropped, hnd]

theorem p4runcb_cons_idle_drop (d : Descriptor) (o : AttemptOracle)
    (rest : List AttemptOracle) (s : Session) (t : List Session) (initUs : Nat)
    (hd : o.drops = true) :
    p4runcb d (o :: rest) (s :: t) initUs =
      (p4runcb d rest t initUs).map fun r =>
        (o.runOutputs.map runOutputToEvent ++ (retryEventsOf o.finalErr ++ r.1),
         r.2.1, r.2.2) := by
  have hrel : release t (afterRun d o s) = t :=
    release_dropped _ _ (by rw [afterRun_dropped, hd])
  simp [p4runcb, poolClient, afterRun_dropped, hd, hrel]

theorem p4runcb_cons_freshFail (d : Descriptor) (o : AttemptOracle)
    (rest : List AttemptOracle) (initUs : Nat) (msg : String)
    (hf : o.fresh = FreshOutcome.fail msg) :
    p4runcb d (o :: rest) [] initUs =
      some ([Event.errorEv (initErrorPrefix ++ msg)], initUs, []) := by
  simp [p4runcb, poolClient, hf]

theorem p4runcb_cons_fresh_ok (d : Descriptor) (o : AttemptOracle)
    (rest : List AttemptOracle) (initUs : Nat) (u p : String) (e : Nat)
    (hf : o.fresh = FreshOutcome.ok u p e) (hnd : o.drops = false) :
    p4runcb d (o :: rest) [] initUs =
      some (o.runOutputs.map runOutputToEvent, initUs + e,
            release [] (overrideRestore d (freshSession u p)
              (afterRun d o (freshSession u p)))) := by
  simp [p4runcb, poolClient, hf, afterRun_dropped, hnd]

theorem p4runcb_cons_fresh_drop (d : Descriptor) (o : AttemptOracle)
    (rest : List AttemptOracle) (initUs : Nat) (u p : String) (e : Nat)
    (hf : o.fresh = FreshOutcome.ok u p e) (hd : o.drops = true) :
    p4runcb d (o :: rest) [] initUs =
      (p4runcb d rest [] (initUs + e)).map fun r =>
        (o.runOutputs.map runOutputToEvent ++ (retryEventsOf o.finalErr ++ r.1),
         r.2.1, r.2.2) := by
  have hrel : release [] (afterRun d o (freshSession u p)) = [] :=
    release_dropped _ _ (by rw [afterRun_dropped, hd])
  simp [p4runcb, poolClient, hf, afterRun_dropped, hd, hrel]

theorem execTrace_cons_idle (o : AttemptOracle) (rest : List AttemptOracle)
    (s : Session) (t : List Session) :
    execTrace (o :: rest) (s :: t) =
      { acq := Acq.fromIdle s, drops := o.drops, finalErr := o.finalErr } ::
        (if o.drops then execTrace rest t else []) := rfl

theorem execTrace_cons_freshFail (o : AttemptOracle) (rest : List AttemptOracle)
    (msg : String) (hf : o.fresh = FreshOutcome.fail msg) :
    execTrace (o :: rest) [] =
      [{ acq := Acq.freshFail msg, drops := false, finalErr := none }] := by
  simp [execTrace, hf]

theorem execTrace_cons_freshOk (o : AttemptOracle) (rest : List AttemptOracle)
    (u p : String) (e : Nat) (hf : o.fresh = FreshOutcome.ok u p e) :
    execTrace (o :: rest) [] =
      { acq := Acq.freshOk u p e, drops := o.drops, finalErr := o.finalErr } ::
        (if o.drops then execTrace rest [] else []) := by
  simp [execTrace, hf]

theorem dropErrCount_cons (e : TraceEntry) (tr : List TraceEntry) :
    dropErrCount (e :: tr) =
      (if e.drops && e.finalErr.isSome then 1 else 0) + dropErrCount tr := by
  simp only [dropErrCount, List.filter_cons]
  split
  · simp [Nat.add_comm]
  · simp

theorem initUsSpec_cons (en : TraceEntry) (tr : List TraceEntry) :
    initUsSpec (en :: tr) =
      (match en.acq with
       | Acq.freshOk _ _ e => e
       | _ => 0) + initUsSpec tr := by
  simp [initUsSpec]

theorem restore_eq (d : Descriptor) (o : AttemptOracle) (s0 : Session)
    (hov : d.user ≠ "" ∧ d.passwd ≠ "") (hnd : o.drops = false) :
    overrideRestore d s0 (afterRun d o s0) =
      { user := s0.user, passwd := s0.passwd, dropped := false,
        vars := setVarsLoop d.joined d.argLens 0, pendingOverride := false } := by
  simp [overrideRestore, afterRun, overrideApply, hov, hnd]

-- C2

/-- C2: when a credential override is supplied (both user and password
non-empty) and the final attempt completes on a non-dropped session, the
session handed to the release deleter carries exactly the credentials it had
when it was leased — both for a session leased from the idle queue and for a
freshly constructed one — so the override is never visible once the lease
ends. -/
theorem c2_theorem (d : Descriptor) (o : AttemptOracle)
    (rest : List AttemptOracle) (initUs : Nat)
    (hov : d.user ≠ "" ∧ d.passwd ≠ "") (hnd : o.drops = false) :
    (∀ (s0 : Session) (t : List Session),
       p4runcb d (o :: rest) (s0 :: t) initUs =
         some (o.runOutputs.map runOutputToEvent, initUs,
               release t { user := s0.user, passwd := s0.passwd, dropped := false,
                           vars := setVarsLoop d.joined d.argLens 0,
                           pendingOverride := false })) ∧
    (∀ (u p : String) (e : Nat), o.fresh = FreshOutcome.ok u p e →
       p4runcb d (o :: rest) [] initUs =
         some (o.runOutputs.map runOutputToEvent, initUs + e,
               release [] { user := u, passwd := p, dropped := false,
                            vars := setVarsLoop d.joined d.argLens 0,
                            pendingOverride := false })) := by
  constructor
  · intro s0 t
    rw [p4runcb_cons_idle_ok d o rest s0 t initUs hnd, restore_eq d o s0 hov hnd]
  · intro u p e hf
    rw [p4runcb_cons_fresh_ok d o rest initUs u p e hf hnd,
        restore_eq d o (freshSession u p) hov hnd]
    rfl

/-- Concrete descriptor with a credential override. -/
def dOv : Descriptor :=
  { cmd := "sync", user := "alice", passwd := "secret", input := [],
    joined := "foobarbaz".toList, argLens := [3, 3, 3] }

/-- Oracle for an uneventful attempt on a fresh session. -/
def oQuiet : AttemptOracle :=
  { fresh := FreshOutcome.ok "du" "dp" 0, runOutputs := [], drops := false,
    finalErr := none }

/-- A healthy pooled session. -/
def sPool : Session :=
  { user := "bob", passwd := "pw", dropped := false, vars := [],
    pendingOverride := false }

/-- Witness for C2: one overridden run on a pooled session releases it with
its original credentials. -/
theorem c2_witness :
    p4runcb dOv [oQuiet] [sPool] 0 =
      some ([], 0,
            release [] { user := "bob", passwd := "pw", dropped := false,
                         vars := setVarsLoop dOv.joined dOv.argLens 0,
                         pendingOverride := false }) :=
  (c2_theorem dOv oQuiet [] 0 ⟨by decide, by decide⟩ rfl).1 sPool []

-- C4

/-- C4: when the idle queue is empty and constructing a fresh session fails
its connect/init, p4runcb emits exactly one error event carrying the failure
message, emits no retry notice, and returns immediately — the rest of the
oracle script is never consulted. -/
theorem c4_theorem (d : Descriptor) (o : AttemptOracle)
    (rest : List AttemptOracle) (initUs : Nat) (msg : String)
    (hf : o.fresh = FreshOutcome.fail msg) :
    p4runcb d (o :: rest) [] initUs =
      some ([Event.errorEv (initErrorPrefix ++ msg)], initUs, []) ∧
    countRetry [Event.errorEv (initErrorPrefix ++ msg)] = 0 :=
  ⟨p4runcb_cons_freshFail d o rest initUs msg hf, rfl⟩

/-- Descriptor with no override and no arguments. -/
def dEx : Descriptor :=
  { cmd := "info", user := "", passwd := "", input := [], joined := [],
    argLens := [] }

/-- Oracle whose fresh construction always fails Init. -/
def oFail : AttemptOracle :=
  { fresh := FreshOutcome.fail "down", runOutputs := [], drops := false,
    finalErr := none }

/-- Witness for C4 on a concrete failing backend. -/
theorem c4_witness :
    p4runcb dEx [oFail] [] 0 =
      some ([Event.errorEv (initErrorPrefix ++ "down")], 0, []) :=
  (c4_theorem dEx oFail [] 0 "down" rfl).1

-- C7

/-- C7: the pool is FIFO — acquire pops and returns the front of a
non-empty idle queue with isFresh = false and no error, release of a healthy
session under capacity appends at the back, and hence two sessions returned
in order are leased again in that same order. -/
theorem c7_theorem :
    (∀ (s : Session) (t : List Session) (f : FreshOutcome),
        poolClient (s :: t) f = (Except.ok (s, false, 0), t)) ∧
    (∀ (idle : List Session) (s : Session),
        s.dropped = false → idle.length < kMaxClients →
        release idle s = idle ++ [s]) ∧
    (∀ (s1 s2 : Session) (f g : FreshOutcome),
        s1.dropped = false → s2.dropped = false →
        poolClient (release (release [] s1) s2) f =
          (Except.ok (s1, false, 0), [s2]) ∧
        poolClient [s2] g = (Except.ok (s2, false, 0), [])) := by
  refine ⟨fun s t f => rfl, ?_, ?_⟩
  · intro idle s h1 h2
    simp [release, h1, h2]
  · intro s1 s2 f g h1 h2
    have e1 : release [] s1 = [s1] := by simp [release, h1, kMaxClients]
    have e2 : release [s1] s2 = [s1, s2] := by simp [release, h2, kMaxClients]
    rw [e1, e2]
    exact ⟨rfl, rfl⟩

/-- Another healthy pooled session. -/
def sPool2 : Session :=
  { user := "carol", passwd := "pw2", dropped := false, vars := [],
    pendingOverride := false }

/-- Witness for C7: two sessions returned in order are served again in that
order. -/
theorem c7_witness :
    poolClient (release (release [] sPool) sPool2) (FreshOutcome.fail "m") =
      (Except.ok (sPool, false, 0), [sPool2]) :=
  ((c7_theorem.2.2) sPool sPool2 (FreshOutcome.fail "m") (FreshOutcome.fail "m")
    rfl rfl).1

-- C1

/-- Oracle for an attempt whose session drops and whose Final call succeeds
(no finalize error). -/
def oDropClean : AttemptOracle :=
  { fresh := FreshOutcome.ok "u" "p" 0, runOutputs := [], drops := true,
    finalErr := none }

/-- Oracle for an attempt whose session drops and whose Final call reports
an error. -/
def oDropErr : AttemptOracle :=
  { fresh := FreshOutcome.ok "u" "p" 0, runOutputs := [], drops := true,
    finalErr := some "conn" }

/-- Counterexample to C1 as stated: an execution with exactly one dropped
session whose Final call succeeds emits zero retry-notice events, not
exactly one — line 222 of the source guards the Retry call with
err.Test(). -/
theorem c1_counterexample :
    (p4runcb dEx [oDropClean, oQuiet] [] 0).map (fun r => countRetry r.1) =
      some 0 ∧
    dropCount (execTrace [oDropClean, oQuiet] []) = 1 := by
  decide

/-- C1 (amended): the number of retry-notice events an execution emits
equals the number of dropped attempts whose Final call reported an error — a
drop whose finalize succeeds emits no retry notice, and a drop whose
finalize errs emits exactly one, before the loop retries. -/
theorem c1_theorem (d : Descriptor) (script : List AttemptOracle)
    (idle : List Session) (initUs : Nat) (r : List Event × Nat × List Session)
    (h : p4runcb d script idle initUs = some r) :
    countRetry r.1 = dropErrCount (execTrace script idle) := by
  induction script generalizing idle initUs r with
  | nil => simp [p4runcb] at h
  | cons o rest ih =>
    cases idle with
    | cons s t =>
      cases hd : o.drops with
      | false =>
        rw [p4runcb_cons_idle_ok d o rest s t initUs hd] at h
        obtain rfl := (Option.some_inj.1 h).symm
        rw [execTrace_cons_idle, hd, dropErrCount_cons]
        simp [countRetry_runEvents, dropErrCount]
      | true =>
        rw [p4runcb_cons_idle_drop d o rest s t initUs hd] at h
        rcases Option.map_eq_some'.1 h with ⟨a, ha, hr⟩
        subst hr
        rw [countRetry_append, countRetry_runEvents, countRetry_append,
            countRetry_retryEventsOf, ih t initUs a ha,
            execTrace_cons_idle, hd, dropErrCount_cons]
        cases o.finalErr <;> simp
    | nil =>
      cases hf : o.fresh with
      | fail msg =>
        rw [p4runcb_cons_freshFail d o rest initUs msg hf] at h
        obtain rfl := (Option.some_inj.1 h).symm
        rw [execTrace_cons_freshFail o rest msg hf]
        simp [countRetry, isRetryEv, dropErrCount]
      | ok u p e =>
        cases hd : o.drops with
        | false =>
          rw [p4runcb_cons_fresh_ok d o rest initUs u p e hf hd] at h
          obtain rfl := (Option.some_inj.1 h).symm
          rw [execTrace_cons_freshOk o rest u p e hf, hd, dropErrCount_cons]
          simp [countRetry_runEvents, dropErrCount]
        | true =>
          rw [p4runcb_cons_fresh_drop d o rest initUs u p e hf hd] at h
          rcases Option.map_eq_some'.1 h with ⟨a, ha, hr⟩
          subst hr
          rw [countRetry_append, countRetry_runEvents, countRetry_append,
              countRetry_retryEventsOf, ih [] (initUs + e) a ha,
              execTrace_cons_freshOk o rest u p e hf, hd, dropErrCount_cons]
          cases o.finalErr <;> simp

/-- Witness for C1: a run with one drop-with-finalize-error emits one retry
notice. -/
theorem c1_witness :
    countRetry [Event.retryEv retryContext "conn"] =
      dropErrCount (execTrace [oDropErr, oQuiet] []) :=
  c1_theorem dEx [oDropErr, oQuiet] [] 0
    ([Event.retryEv retryContext "conn"], 0, [freshSession "du" "dp"]) (by decide)

-- C8

theorem p4runcb_initUs (d : Descriptor) (script : List AttemptOracle)
    (idle : List Session) (initUs : Nat) (r : List Event × Nat × List Session)
    (h : p4runcb d script idle initUs = some r) :
    r.2.1 = initUs + initUsSpec (execTrace script idle) := by
  induction script generalizing idle initUs r with
  | nil => simp [p4runcb] at h
  | cons o rest ih =>
    cases idle with
    | cons s t =>
      cases hd : o.drops with
      | false =>
        rw [p4runcb_cons_idle_ok d o rest s t initUs hd] at h
        obtain rfl := (Option.some_inj.1 h).symm
        rw [execTrace_cons_idle, hd]
        simp [initUsSpec]
      | true =>
        rw [p4runcb_cons_idle_drop d o rest s t initUs hd] at h
        rcases Option.map_eq_some'.1 h with ⟨a, ha, hr⟩
        subst hr
        rw [execTrace_cons_idle, hd, initUsSpec_cons]
        simpa using ih t initUs a ha
    | nil =>
      cases hf : o.fresh with
      | fail msg =>
        rw [p4runcb_cons_freshFail d o rest initUs msg hf] at h
        obtain rfl := (Option.some_inj.1 h).symm
        rw [execTrace_cons_freshFail o rest msg hf]
        simp [initUsSpec]
      | ok u p e =>
        cases hd : o.drops with
        | false =>
          rw [p4runcb_cons_fresh_ok d o rest initUs u p e hf hd] at h
          obtain rfl := (Option.some_inj.1 h).symm
          rw [execTrace_cons_freshOk o rest u p e hf, hd]
          simp [initUsSpec]
        | true =>
          rw [p4runcb_cons_fresh_drop d o rest initUs u p e hf hd] at h
          rcases Option.map_eq_some'.1 h with ⟨a, ha, hr⟩
          subst hr
          rw [execTrace_cons_freshOk o rest u p e hf, hd, initUsSpec_cons]
          have := ih [] (initUs + e) a ha
          simp at this ⊢
          omega

theorem initUsSpec_zero_of_noFresh (tr : List TraceEntry)
    (h : ∀ en ∈ tr, ∀ (u p : String) (e : Nat), en.acq ≠ Acq.freshOk u p e) :
    initUsSpec tr = 0 := by
  induction tr with
  | nil => rfl
  | cons en tr2 ih =>
    rw [initUsSpec_cons, ih fun x hx => h x (List.mem_cons_of_mem en hx)]
    cases hacq : en.acq with
    | freshOk u p e => exact absurd hacq (h en (List.mem_cons_self en tr2) u p e)
    | fromIdle s => rfl
    | freshFail m => rfl

/-- C8: the value p4runcb returns is the initial accumulator plus the summed
construction time (in microseconds) of the fresh sessions successfully
constructed during the execution; it differs from the initial accumulator
only when some attempt constructed a fresh session, and a call served
entirely from the idle pool returns the accumulator unchanged (zero when it
starts at zero). -/
theorem c8_theorem (d : Descriptor) (script : List AttemptOracle)
    (idle : List Session) (initUs : Nat) (r : List Event × Nat × List Session)
    (h : p4runcb d script idle initUs = some r) :
    r.2.1 = initUs + initUsSpec (execTrace script idle) ∧
    (r.2.1 ≠ initUs →
      ∃ en ∈ execTrace script idle, ∃ (u p : String) (e : Nat),
        en.acq = Acq.freshOk u p e) ∧
    ((∀ en ∈ execTrace script idle, ∀ (u p : String) (e : Nat),
        en.acq ≠ Acq.freshOk u p e) → r.2.1 = initUs) := by
  have hmain := p4runcb_initUs d script idle initUs r h
  refine ⟨hmain, ?_, ?_⟩
  · intro hne
    by_contra hno
    push_neg at hno
    have : initUsSpec (execTrace script idle) = 0 :=
      initUsSpec_zero_of_noFresh _ fun en hen u p e => hno en hen u p e
    omega
  · intro hno
    have : initUsSpec (execTrace script idle) = 0 :=
      initUsSpec_zero_of_noFresh _ hno
    omega

/-- Oracle for a fresh construction that takes 5 microseconds. -/
def oFresh5 : AttemptOracle :=
  { fresh := FreshOutcome.ok "u" "p" 5, runOutputs := [], drops := false,
    finalErr := none }

/-- Witness for C8: a run that constructs one fresh session in 5
microseconds returns 5. -/
theorem c8_witness :
    (5 : Nat) = 0 + initUsSpec (execTrace [oFresh5] []) :=
  (c8_theorem dEx [oFresh5] [] 0 ([], 5, [freshSession "u" "p"]) (by decide)).1

-- C10

/-- C10: a session observed dropped at the end of an attempt is never
re-queued by the release deleter regardless of idle-pool occupancy, and
consequently — even though the dropped branch of p4runcb skips credential
restoration — no session with an unrestored override ever enters the pool:
starting from a pool without pending overrides, every session in the pool
after an execution still has none. -/
theorem c10_theorem :
    (∀ (idle : List Session) (s : Session), s.dropped = true →
        release idle s = idle) ∧
    (∀ (d : Descriptor) (script : List AttemptOracle) (idle : List Session)
        (initUs : Nat) (r : List Event × Nat × List Session),
        (∀ s ∈ idle, s.pendingOverride = false) →
        p4runcb d script idle initUs = some r →
        ∀ s ∈ r.2.2, s.pendingOverride = false) := by
  refine ⟨release_dropped, ?_⟩
  intro d script
  induction script with
  | nil =>
    intro idle initUs r _ h
    simp [p4runcb] at h
  | cons o rest ih =>
    intro idle initUs r hidle h
    cases idle with
    | cons s t =>
      cases hd : o.drops with
      | false =>
        rw [p4runcb_cons_idle_ok d o rest s t initUs hd] at h
        obtain rfl := (Option.some_inj.1 h).symm
        intro x hx
        rcases mem_release _ _ _ hx with hx2 | hx2
        · exact hidle x (List.mem_cons_of_mem s hx2)
        · rw [hx2]
          exact restore_pendingOverride d o s
            (hidle s (List.mem_cons_self s t))
      | true =>
        rw [p4runcb_cons_idle_drop d o rest s t initUs hd] at h
        rcases Option.map_eq_some'.1 h with ⟨a, ha, hr⟩
        subst hr
        exact ih t initUs a
          (fun x hx => hidle x (List.mem_cons_of_mem s hx)) ha
    | nil =>
      cases hf : o.fresh with
      | fail msg =>
        rw [p4runcb_cons_freshFail d o rest initUs msg hf] at h
        obtain rfl := (Option.some_inj.1 h).symm
        intro x hx
        cases hx
      | ok u p e =>
        cases hd : o.drops with
        | false =>
          rw [p4runcb_cons_fresh_ok d o rest initUs u p e hf hd] at h
          obtain rfl := (Option.some_inj.1 h).symm
          intro x hx
          rcases mem_release _ _ _ hx with hx2 | hx2
          · cases hx2
          · rw [hx2]
            exact restore_pendingOverride d o (freshSession u p) rfl
        | true =>
          rw [p4runcb_cons_fresh_drop d o rest initUs u p e hf hd] at h
          rcases Option.map_eq_some'.1 h with ⟨a, ha, hr⟩
          subst hr
          exact ih [] (initUs + e) a (fun x hx => by cases hx) ha

/-- Witness for C10: after a run on an empty pool, the pooled session has no
pending override. -/
theorem c10_witness : (freshSession "u" "p").pendingOverride = false :=
  c10_theorem.2 dEx [oFresh5] [] 0 ([], 5, [freshSession "u" "p"])
    (fun s hs => by cases hs) (by decide) (freshSession "u" "p")
    (List.mem_singleton.2 rfl)

end P4Bridge
